import Mathlib

/-!
# Verification of the MCP tool-plane (autonomous-ollama)

A shallow embedding of the MCP (Model Context Protocol) tool-plane of the
repository: the JIT discovery pattern matcher (`server/mcp_jit.go`), the
execution planner, the server manager state machine (`server/mcp.go`), the
security validation of server descriptors, and the HTTP / WebSocket transport
clients' handshake and tool-listing behaviour (`server/mcp_client_http.go`,
`server/mcp_client_ws.go`).

Go maps are modelled as insertion-ordered association lists
(`List (String × β)`): Go's randomized map iteration order never affects the
membership facts proved here, and where an iteration order is observable
(the planner's conflicting-file reason string, `SearchTools`' server order)
the claims settled below do not depend on the particular order chosen.
Go strings are modelled as Lean `String`/`List Char`; all concrete inputs in
the claims are ASCII, where Go's byte/rune distinction and Unicode case
folding coincide with `Char`-level operations.
-/

namespace MCP

/-! ## Go string primitives (package `strings`) -/

/-- Go `strings.HasPrefix` on character lists. -/
def listStartsWith : List Char → List Char → Bool
  | _, [] => true
  | [], _ :: _ => false
  | a :: as, b :: bs => a == b && listStartsWith as bs

/-- Substring occurrence: does `sub` occur contiguously in `s`?
Matches Go `strings.Contains` (the empty string occurs in every string). -/
def listContainsSub : List Char → List Char → Bool
  | s, sub =>
    if listStartsWith s sub then true
    else match s with
      | [] => false
      | _ :: rest => listContainsSub rest sub

/-- Go `strings.Contains s sub`. -/
def goContains (s sub : String) : Bool :=
  listContainsSub s.toList sub.toList

/-- Go `strings.HasPrefix s pre`. -/
def goStartsWith (s pre : String) : Bool :=
  listStartsWith s.toList pre.toList

/-- Go `strings.HasSuffix s suf`. -/
def goEndsWith (s suf : String) : Bool :=
  listStartsWith s.toList.reverse suf.toList.reverse

/-- Go `strings.ToLower` (ASCII-faithful). -/
def goToLower (s : String) : String :=
  String.mk (s.toList.map Char.toLower)

/-- Go `strings.Trim s "*"`: strip leading and trailing `*` characters. -/
def goTrimStar (s : String) : String :=
  String.mk (((s.toList.dropWhile (· == '*')).reverse.dropWhile (· == '*')).reverse)

/-- Go `strings.ContainsAny s chars`: does `s` contain any character of `chars`? -/
def goContainsAny (s chars : String) : Bool :=
  s.toList.any (fun c => chars.toList.contains c)

/-! ## Go `path/filepath.Match` (used by `MatchToolPattern`)

A faithful port of Go's `filepath.Match` on a non-Windows target
(`scanChunk`, `matchChunk`, `getEsc`). `.error ()` plays the role of
`ErrBadPattern`. The loops of the Go source are written as fuelled
recursions; every loop iteration of the source consumes at least one
character of its pattern chunk (resp. of the name, for the star
backtracking loop), so the fuel chosen at each call site strictly exceeds
the number of iterations the Go loop can perform and the fuel-exhausted
branch is unreachable. -/

/-- Leading-`*` consumption at the start of Go `scanChunk`. -/
def dropStars : List Char → Bool × List Char
  | [] => (false, [])
  | c :: rest =>
    if c == '*' then (true, (dropStars rest).2)
    else (false, c :: rest)

/-- The chunk scan of Go `scanChunk`: split off the pattern segment up to the
next top-level `*`, tracking bracket ranges and backslash escapes. -/
def scanChunkAux : List Char → Bool → List Char × List Char
  | [], _ => ([], [])
  | c :: rest, inrange =>
    if c == '\\' then
      match rest with
      | c2 :: rest2 =>
        let (ch, rst) := scanChunkAux rest2 inrange
        (c :: c2 :: ch, rst)
      | [] => ([c], [])
    else if c == '[' then
      let (ch, rst) := scanChunkAux rest true
      (c :: ch, rst)
    else if c == ']' then
      let (ch, rst) := scanChunkAux rest false
      (c :: ch, rst)
    else if c == '*' && !inrange then
      ([], c :: rest)
    else
      let (ch, rst) := scanChunkAux rest inrange
      (c :: ch, rst)

/-- Go `scanChunk`: `(star, chunk, rest)`. -/
def scanChunk (pattern : List Char) : Bool × List Char × List Char :=
  let (star, p) := dropStars pattern
  let (chunk, rest) := scanChunkAux p false
  (star, chunk, rest)

/-- Go `getEsc`: read one (possibly escaped) character of a character class.
`none` is `ErrBadPattern`. -/
def getEsc : List Char → Option (Char × List Char)
  | [] => none
  | c :: rest =>
    if c == '-' || c == ']' then none
    else if c == '\\' then
      match rest with
      | [] => none
      | r :: rest2 => if rest2.isEmpty then none else some (r, rest2)
    else
      if rest.isEmpty then none else some (c, rest)

/-- The character-class loop inside Go `matchChunk` (the `for {}` over
ranges). `r` is the rune taken from the name. Fuel bounds the iteration
count; each iteration consumes at least one chunk character via `getEsc`. -/
def matchRanges (fuel : Nat) (r : Char) (chunk : List Char) (matched : Bool)
    (nrange : Nat) : Except Unit (Bool × List Char) :=
  match fuel with
  | 0 => .error ()
  | fuel + 1 =>
    match nrange, chunk with
    | _ + 1, ']' :: rest => .ok (matched, rest)
    | _, chunk =>
      match getEsc chunk with
      | none => .error ()
      | some (lo, chunk1) =>
        match chunk1 with
        | '-' :: chunk2 =>
          match getEsc chunk2 with
          | none => .error ()
          | some (hi, chunk3) =>
            matchRanges fuel r chunk3
              (matched || (decide (lo ≤ r) && decide (r ≤ hi))) (nrange + 1)
        | _ =>
          matchRanges fuel r chunk1
            (matched || (decide (lo ≤ r) && decide (r ≤ lo))) (nrange + 1)

/-- Go `matchChunk chunk s`: `.ok (some rest)` is `(rest, true, nil)`,
`.ok none` is `("", false, nil)`, `.error ()` is `ErrBadPattern`. The
`failed` flag mirrors the Go local of the same name (parsing continues
after a mismatch so that malformed patterns are still reported). -/
def matchChunk (fuel : Nat) (chunk s : List Char) (failed : Bool) :
    Except Unit (Option (List Char)) :=
  match fuel with
  | 0 => .error ()
  | fuel + 1 =>
    match chunk with
    | [] => .ok (if failed then none else some s)
    | c :: chunkRest =>
      let failed := failed || s.isEmpty
      if c == '[' then
        let r := if failed then Char.ofNat 0 else s.headD (Char.ofNat 0)
        let s1 := if failed then s else s.tail
        let (negated, chunk1) :=
          match chunkRest with
          | '^' :: t => (true, t)
          | t => (false, t)
        match matchRanges (chunk1.length + 1) r chunk1 false 0 with
        | .error () => .error ()
        | .ok (m, chunk2) => matchChunk fuel chunk2 s1 (failed || (m == negated))
      else if c == '?' then
        match failed, s with
        | true, _ => matchChunk fuel chunkRest s true
        | false, s0 :: sRest => matchChunk fuel chunkRest sRest (s0 == '/')
        | false, [] => matchChunk fuel chunkRest [] true
      else if c == '\\' then
        match chunkRest with
        | [] => .error ()
        | c2 :: chunkRest2 =>
          match failed, s with
          | true, _ => matchChunk fuel chunkRest2 s true
          | false, s0 :: sRest => matchChunk fuel chunkRest2 sRest (!(c2 == s0))
          | false, [] => matchChunk fuel chunkRest2 [] true
      else
        match failed, s with
        | true, _ => matchChunk fuel chunkRest s true
        | false, s0 :: sRest => matchChunk fuel chunkRest sRest (!(c == s0))
        | false, [] => matchChunk fuel chunkRest [] true

mutual

/-- The `Pattern:` loop of Go `filepath.Match`. -/
def goMatchAux (fuel : Nat) (pattern name : List Char) : Except Unit Bool :=
  match fuel with
  | 0 => .error ()
  | fuel + 1 =>
    match pattern with
    | [] => .ok name.isEmpty
    | _ :: _ =>
      let (star, chunk, rest) := scanChunk pattern
      if star && chunk.isEmpty then
        -- trailing `*` matches the rest of the name unless it has a `/`
        .ok (!listContainsSub name ['/'])
      else
        match matchChunk (chunk.length + 1) chunk name false with
        | .ok (some t) =>
          if t.isEmpty || !rest.isEmpty then goMatchAux fuel rest t
          else if star then starLoop fuel chunk rest name
          else .ok false
        | .ok none =>
          if star then starLoop fuel chunk rest name
          else .ok false
        | .error () => .error ()

/-- The star-backtracking loop inside Go `filepath.Match`: try to match
`chunk` at each successive position of `name`, stopping at `/`. -/
def starLoop (fuel : Nat) (chunk rest : List Char) (name : List Char) :
    Except Unit Bool :=
  match fuel with
  | 0 => .error ()
  | fuel + 1 =>
    match name with
    | [] => .ok false
    | c :: ns =>
      if c == '/' then .ok false
      else
        match matchChunk (chunk.length + 1) chunk ns false with
        | .ok (some t) =>
          if rest.isEmpty && !t.isEmpty then starLoop fuel chunk rest ns
          else goMatchAux fuel rest t
        | .ok none => starLoop fuel chunk rest ns
        | .error () => .error ()

end

/-- Go `filepath.Match pattern name` (non-Windows). The fuel strictly
bounds the total number of loop iterations the Go source can perform
(each `Pattern:` iteration consumes pattern characters, each star-loop
iteration consumes a name character). -/
def goFilepathMatch (pattern name : String) : Except Unit Bool :=
  goMatchAux ((pattern.length + 1) * (name.length + 2)) pattern.toList name.toList

/-! ## `MatchToolPattern` (`server/mcp_jit.go`) -/

/-- `MatchToolPattern` from `server/mcp_jit.go`: case-insensitive tool-name
matching with substring semantics for edge wildcards and a `filepath.Match`
fallback for general glob patterns. -/
def MatchToolPattern (pattern toolName : String) : Bool :=
  let pattern := goToLower pattern
  let toolName := goToLower toolName
  if pattern == toolName then true
  else if pattern == "*" then true
  else
    let trimmed := goTrimStar pattern
    if (trimmed != "" && trimmed != pattern) && goContains toolName trimmed then
      true
    else
      match goFilepathMatch pattern toolName with
      | .ok true => true
      | _ =>
        if !goStartsWith pattern "*" && !goEndsWith pattern "*" then
          goContains toolName pattern
        else false

example : MatchToolPattern "*file*" "filesystem:list_directory" = true := by decide
example : MatchToolPattern "git:*" "filesystem:read_file" = false := by decide
example : MatchToolPattern "GIT:STATUS" "git:status" = true := by decide
example : MatchToolPattern "filesystem:*" "filesystem:read_file" = true := by decide
example : MatchToolPattern "*:status" "git:status" = true := by decide
example : MatchToolPattern "git:status" "git:commit" = false := by decide
example : MatchToolPattern "file" "filesystem:read_file" = true := by decide
example : MatchToolPattern "*xyz*" "filesystem:read_file" = false := by decide
/-! ## The `api` tool data model

The `api` package of the repository is not among the provided sources; the
shapes below are reconstructed from their uses in `server/mcp.go`,
`server/mcp_jit.go` and the transport clients (`api.Tool`,
`api.ToolFunction`, `api.ToolFunctionParameters`, `api.ToolProperty`,
`api.ToolPropertiesMap`, `api.ToolCall`). -/

/-- `api.ToolProperty`: JSON-schema style property (`Type`, `Description`). -/
structure ToolProperty where
  type : List String := []
  description : String := ""
deriving DecidableEq, Repr

/-- `api.ToolFunctionParameters` with `api.ToolPropertiesMap` modelled as an
insertion-ordered association list (`NewToolPropertiesMap` + `Set`). -/
structure ToolFunctionParameters where
  type : String := ""
  required : List String := []
  properties : List (String × ToolProperty) := []
deriving DecidableEq, Repr

/-- `api.ToolFunction`. -/
structure ToolFunction where
  name : String := ""
  description : String := ""
  parameters : ToolFunctionParameters := {}
deriving DecidableEq, Repr

/-- `api.Tool`. -/
structure Tool where
  type : String := ""
  function : ToolFunction := {}
deriving DecidableEq, Repr

/-- A single ASCII apostrophe (U+0027), used inside literal strings taken
from the Go source. -/
def apos : String := String.singleton (Char.ofNat 39)

/-- `MCPDiscoverTool` from `server/mcp_jit.go`: the built-in meta-tool for
JIT discovery (name `mcp_discover`, one required string parameter
`pattern`). The description strings are the Go literals. -/
def MCPDiscoverTool : Tool :=
  { type := "function"
    function :=
      { name := "mcp_discover"
        description :=
          "Search for available tools by capability pattern.\n\n" ++
          "WHEN TO USE: Call this when you need a tool you don" ++ apos ++
          "t currently have.\n" ++
          "After calling, matching tools become available for your next action.\n\n" ++
          "PATTERNS:\n" ++
          "- \"*file*\" or \"*read*\" - File operations (read, write, list, search)\n" ++
          "- \"*git*\" - Git operations (status, commit, diff, log)\n" ++
          "- \"*sql*\" or \"*postgres*\" or \"*database*\" - Database operations\n" ++
          "- \"*search*\" - Search capabilities\n" ++
          "- \"*http*\" or \"*fetch*\" - HTTP/API operations\n" ++
          "- \"*\" - List all available tools (use sparingly)\n\n" ++
          "RETURNS: Description of discovered tools. Use them in your next response."
        parameters :=
          { type := "object"
            required := ["pattern"]
            properties :=
              [("pattern",
                { type := ["string"]
                  description :=
                    "Glob pattern to match tool names (e.g., " ++ apos ++ "*file*" ++
                    apos ++ ", " ++ apos ++ "*git*" ++ apos ++ ")" })] } } }

/-- A Go `interface\x7b\x7d` argument value as inspected by the planner: the
planner only distinguishes string-typed values (`pathArg.(string)`). -/
inductive GoVal where
  | str (s : String)
  | nonString
deriving DecidableEq, Repr

/-- `api.ToolCallFunction`: name plus ordered argument map. -/
structure ToolCallFunction where
  name : String := ""
  arguments : List (String × GoVal) := []
deriving DecidableEq, Repr

/-- `api.ToolCall`. -/
structure ToolCall where
  function : ToolCallFunction := {}
deriving DecidableEq, Repr

/-- `args.Get k` on the ordered argument map: the first binding of `k`. -/
def lookupArg (args : List (String × GoVal)) (k : String) : Option GoVal :=
  match args with
  | [] => none
  | (k0, v) :: rest => if k0 == k then some v else lookupArg rest k

/-- `IsMCPDiscoverCall` from `server/mcp_jit.go`. -/
def IsMCPDiscoverCall (toolCall : ToolCall) : Bool :=
  toolCall.function.name == "mcp_discover"

/-! ## The execution planner (`MCPManager.AnalyzeExecutionPlan`) -/

/-- `ExecutionPlan` from `server/mcp.go`. -/
structure ExecutionPlan where
  RequiresSequential : Bool
  Groups : List (List Nat)
  Reason : String
deriving DecidableEq, Repr

/-- `fileTargets[path] = append(fileTargets[path], i)` on the
insertion-ordered model of the Go map. -/
def targetsAdd (ts : List (String × List Nat)) (k : String) (i : Nat) :
    List (String × List Nat) :=
  match ts with
  | [] => [(k, [i])]
  | (k0, is) :: rest =>
    if k0 == k then (k0, is ++ [i]) :: rest
    else (k0, is) :: targetsAdd rest k i

/-- The path/file operand extraction of `AnalyzeExecutionPlan`: argument
`path` if present and string-typed, else argument `file` (consulted only
when `path` is absent entirely). -/
def extractTarget (args : List (String × GoVal)) (i : Nat)
    (ts : List (String × List Nat)) : List (String × List Nat) :=
  match lookupArg args "path" with
  | some (.str p) => targetsAdd ts p i
  | some .nonString => ts
  | none =>
    match lookupArg args "file" with
    | some (.str f) => targetsAdd ts f i
    | _ => ts

/-- Accumulator of the first analysis loop of `AnalyzeExecutionPlan`. -/
structure ScanState where
  hasWriteOperations : Bool
  hasReadOperations : Bool
  fileTargets : List (String × List Nat)
deriving Repr

/-- One iteration of the first loop of `AnalyzeExecutionPlan`: classify the
call name, record write/read flags and file targets. Both the write and
the read block run independently, as in the source. -/
def scanStep (i : Nat) (tc : ToolCall) (st : ScanState) : ScanState :=
  let toolName := tc.function.name
  let args := tc.function.arguments
  let st :=
    if goContains toolName "write" || goContains toolName "create" ||
       goContains toolName "edit" || goContains toolName "append" then
      { st with hasWriteOperations := true
                fileTargets := extractTarget args i st.fileTargets }
    else st
  if goContains toolName "read" || goContains toolName "list" ||
     goContains toolName "get" then
    { st with hasReadOperations := true
              fileTargets := extractTarget args i st.fileTargets }
  else st

/-- The first loop of `AnalyzeExecutionPlan`, with the running index `i`. -/
def scanCallsAux : Nat → List ToolCall → ScanState → ScanState
  | _, [], st => st
  | i, tc :: rest, st => scanCallsAux (i + 1) rest (scanStep i tc st)

/-- The name-pair ordering patterns of `AnalyzeExecutionPlan`
(`create/read`, `write/read`, `1/2`, `first/second`, `init/use`). -/
def orderedPair (curr next : String) : Bool :=
  (goContains curr "create" && goContains next "read") ||
  (goContains curr "write" && goContains next "read") ||
  (goContains curr "1" && goContains next "2") ||
  (goContains curr "first" && goContains next "second") ||
  (goContains curr "init" && goContains next "use")

/-- `MCPManager.AnalyzeExecutionPlan` from `server/mcp.go`. The
conflicting-file check picks the first over-occupied entry of the
insertion-ordered `fileTargets` model (the Go map iteration order is
randomized; `RequiresSequential` and `Groups` do not depend on it, and no
claim below depends on which entry the reason string cites). -/
def AnalyzeExecutionPlan (toolCalls : List ToolCall) : ExecutionPlan :=
  if toolCalls.length ≤ 1 then
    { RequiresSequential := false, Groups := [[0]], Reason := "Single tool call" }
  else
    let st := scanCallsAux 0 toolCalls
      { hasWriteOperations := false, hasReadOperations := false, fileTargets := [] }
    let rs₀ : Bool × String :=
      if st.hasWriteOperations && st.hasReadOperations then
        (true, "Mixed read and write operations detected")
      else (false, "Can execute in parallel")
    let rs₁ : Bool × String :=
      match st.fileTargets.find? (fun p => decide (p.2.length > 1)) with
      | some (file, _) => (true, "Multiple operations on the same file: " ++ file)
      | none => rs₀
    let names := toolCalls.map (·.function.name)
    let rs₂ : Bool × String :=
      if (names.zip names.tail).any (fun p => orderedPair p.1 p.2) then
        (true, "Tool names suggest sequential dependency")
      else rs₁
    let n := toolCalls.length
    let groups :=
      if rs₂.1 then (List.range n).map (fun i => [i])
      else [List.range n]
    { RequiresSequential := rs₂.1, Groups := groups, Reason := rs₂.2 }

/-! ## Association-list model of Go maps -/

/-- Go map read `m[k]` (first binding wins; maps built by `ainsert` keep
keys unique). -/
def alookup {β : Type} : List (String × β) → String → Option β
  | [], _ => none
  | (k0, v) :: rest, k => if k0 == k then some v else alookup rest k

/-- Go map write `m[k] = v`: replace the binding in place, or append. -/
def ainsert {β : Type} : List (String × β) → String → β → List (String × β)
  | [], k, v => [(k, v)]
  | (k0, v0) :: rest, k, v =>
    if k0 == k then (k0, v) :: rest else (k0, v0) :: ainsert rest k v

/-- Go map delete `delete(m, k)` (removes every binding of `k`; maps built
by `ainsert` have at most one). -/
def aerase {β : Type} : List (String × β) → String → List (String × β)
  | [], _ => []
  | (k0, v0) :: rest, k =>
    if k0 == k then aerase rest k else (k0, v0) :: aerase rest k

theorem alookup_ainsert {β : Type} (m : List (String × β)) (k k' : String) (v : β) :
    alookup (ainsert m k v) k' = if k' = k then some v else alookup m k' := by
  induction m with
  | nil =>
    by_cases h : k' = k
    · subst h; simp [ainsert, alookup]
    · have hk : ¬ (k = k') := fun hh => h hh.symm
      simp [ainsert, alookup, h, hk]
  | cons p rest ih =>
    obtain ⟨k0, v0⟩ := p
    by_cases h0 : k0 = k
    · subst h0
      by_cases h : k' = k0
      · subst h; simp [ainsert, alookup]
      · have hk : ¬ (k0 = k') := fun hh => h hh.symm
        simp [ainsert, alookup, h, hk]
    · by_cases h1 : k0 = k'
      · subst h1
        have hk : ¬ (k0 = k) := h0
        simp [ainsert, alookup, h0, hk]
      · simp [ainsert, alookup, h0, h1, ih]

theorem alookup_aerase {β : Type} (m : List (String × β)) (k k' : String) :
    alookup (aerase m k) k' = if k' = k then none else alookup m k' := by
  induction m with
  | nil => by_cases h : k' = k <;> simp [aerase, alookup, h]
  | cons p rest ih =>
    obtain ⟨k0, v0⟩ := p
    by_cases h0 : k0 = k
    · subst h0
      by_cases h : k' = k0
      · subst h; simp [aerase, alookup, ih]
      · have hk : ¬ (k0 = k') := fun hh => h hh.symm
        simp [aerase, alookup, ih, h, hk]
    · by_cases h1 : k0 = k'
      · subst h1
        have hk : ¬ (k0 = k) := h0
        simp [aerase, alookup, h0, hk]
      · simp [aerase, alookup, h0, h1, ih]

/-! ## Security validation

The security configuration (`GetSecurityConfig`, `mcp_security.go`) is not
among the provided sources; its two predicates are modelled from the spec. -/

/-- Modelled from the spec: the command deny-list of the Security Validator
(`mcp_security.go` is missing from the sources): shells, privilege
escalation, destructive commands, ad-hoc network tools. -/
def deniedCommands : List String :=
  ["sh", "bash", "zsh", "dash", "ksh", "fish",
   "sudo", "su", "doas",
   "rm", "dd", "mkfs",
   "curl", "wget", "nc", "ncat", "socat"]

/-- Modelled from the spec: `SecurityConfig.IsCommandAllowed` — the command
is allowed iff it is not on the deny-list. -/
def IsCommandAllowed (cmd : String) : Bool :=
  !(deniedCommands.contains cmd)

/-- Modelled from the spec: the shell metacharacter set checked by
`SecurityConfig.HasShellMetacharacters`
(semicolon, ampersand, pipe, backtick, dollar, parentheses, braces,
angle brackets, newline). -/
def shellMetachars : List Char :=
  [';', '&', '|', Char.ofNat 96, Char.ofNat 36, '(', ')',
   Char.ofNat 123, Char.ofNat 125, '<', '>', Char.ofNat 10]

/-- Modelled from the spec: `SecurityConfig.HasShellMetacharacters`. -/
def HasShellMetacharacters (s : String) : Bool :=
  s.toList.any (fun c => shellMetachars.contains c)

/-! ## Server configuration and validation (`MCPManager.validateServerConfig`) -/

/-- Modelled from the spec: `api.MCPServerConfig` (the `api` package is not
among the provided sources). Fields follow the spec's ServerDescriptor and
the uses in `server/mcp.go` and the transport clients: `Name`, `Transport`
(empty means stdio), `Command`/`Args`/`Env` for stdio, `URL`/`Headers` for
HTTP and WebSocket. -/
structure MCPServerConfig where
  name : String := ""
  transport : String := ""
  command : String := ""
  args : List String := []
  env : List (String × String) := []
  url : String := ""
  headers : List (String × String) := []
deriving DecidableEq, Repr

/-- The distinct error cases of `validateServerConfig` (the Go source
returns formatted error strings; the constructors carry the same data). -/
inductive ConfigError where
  | emptyName
  | nameTooLong
  | nameInvalidChars
  | emptyCommand
  | commandNotAllowed (cmd : String)
  | commandDotDot
  | suspiciousArg (arg : String)
  | argShellMetachars (arg : String)
  | envShellMetachars (key : String)
deriving DecidableEq, Repr

/-- The argument loop of `validateServerConfig`: first offending argument.
Go operator precedence: `Contains(arg, "..") || HasPrefix(arg, "-") &&
len(arg) > 50`. -/
def findArgError : List String → Option ConfigError
  | [] => none
  | arg :: rest =>
    if goContains arg ".." || (goStartsWith arg "-" && decide (arg.length > 50)) then
      some (.suspiciousArg arg)
    else if HasShellMetacharacters arg then some (.argShellMetachars arg)
    else findArgError rest

/-- The environment-variable loop of `validateServerConfig` (keys only). -/
def findEnvError : List (String × String) → Option ConfigError
  | [] => none
  | (key, _) :: rest =>
    if HasShellMetacharacters key then some (.envShellMetachars key)
    else findEnvError rest

/-- `MCPManager.validateServerConfig` from `server/mcp.go`. Note that the
checks are applied unconditionally: the function never reads
`config.transport` or `config.url`. -/
def validateServerConfig (config : MCPServerConfig) : Except ConfigError Unit :=
  if config.name == "" then .error .emptyName
  else if decide (config.name.length > 100) then .error .nameTooLong
  else if goContainsAny config.name "/\\:*?\"<>|" then .error .nameInvalidChars
  else if config.command == "" then .error .emptyCommand
  else if !(IsCommandAllowed config.command) then
    .error (.commandNotAllowed config.command)
  else if goContains config.command ".." then .error .commandDotDot
  else
    match findArgError config.args with
    | some e => .error e
    | none =>
      match findEnvError config.env with
      | some e => .error e
      | none => .ok ()

/-! ## The server manager (`MCPManager`, `server/mcp.go`)

The stdio `MCPClient` implementation (`mcp_client.go`) is not among the
provided sources; the manager only depends on its
`Initialize`/`ListTools`/`CallTool`/`Close` contract, so a connected client
is modelled as a handle with its listed tools, and the outcome of dialing a
server (its `Initialize` + `ListTools` round) is supplied by a connection
oracle: `none` means failure at either stage (both leave the manager
unchanged), `some tools` a successful connection listing `tools`. -/

/-- A connected client handle (`*MCPClient`): server name and listed tools. -/
structure MCPClient where
  name : String
  tools : List Tool
deriving DecidableEq, Repr

/-- Outcome of `NewMCPClient` + `Initialize` + `ListTools` for a server name. -/
def ConnOracle : Type := String → Option (List Tool)

/-- Outcome of `client.CallTool name args`: content and optional error. -/
def CallOracle : Type := String → String → List (String × GoVal) → String × Option String

/-- `MCPManager` state from `server/mcp.go`. -/
structure MCPManager where
  clients : List (String × MCPClient)
  toolRouting : List (String × String)
  maxClients : Nat
  pendingConfigs : List (String × MCPServerConfig)
  discoveredTools : List (String × Tool)
  allToolsCache : List (String × List Tool)
  maxToolsPerDiscovery : Nat
deriving DecidableEq, Repr

/-- `NewMCPManager` (Go: `maxToolsPerDiscovery <= 0` defaults to 5; counts
are modelled as `Nat`, so `= 0` is the non-positive case). -/
def NewMCPManager (maxClients maxToolsPerDiscovery : Nat) : MCPManager :=
  { clients := []
    toolRouting := []
    maxClients := maxClients
    pendingConfigs := []
    discoveredTools := []
    allToolsCache := []
    maxToolsPerDiscovery := if maxToolsPerDiscovery = 0 then 5 else maxToolsPerDiscovery }

/-- The error cases of the manager operations (formatted error strings in
the source; `connectFailed` covers both the initialize-failed and the
list-tools-failed message, which differ only in wording). -/
inductive MgrError where
  | maxServersReached (max : Nat)
  | invalidConfig (e : ConfigError)
  | alreadyExists (name : String)
  | notConfigured (name : String)
  | connectFailed (name : String)
  | serverNotFound (name : String)
deriving DecidableEq, Repr

/-- Tool registration loop: `for _, tool := range tools \x7b
m.toolRouting[tool.Function.Name] = serverName \x7d`. -/
def registerTools (routing : List (String × String)) (tools : List Tool)
    (serverName : String) : List (String × String) :=
  tools.foldl (fun r t => ainsert r t.function.name serverName) routing

/-- `MCPManager.AddServerLazy`: capacity check over clients plus pending,
validation, then store in `pendingConfigs`. The connected-clients map is
not consulted. -/
def MCPManager.AddServerLazy (m : MCPManager) (config : MCPServerConfig) :
    Except MgrError MCPManager :=
  if m.clients.length + m.pendingConfigs.length ≥ m.maxClients then
    .error (.maxServersReached m.maxClients)
  else
    match validateServerConfig config with
    | .error e => .error (.invalidConfig e)
    | .ok () =>
      .ok { m with pendingConfigs := ainsert m.pendingConfigs config.name config }

/-- `MCPManager.EnsureConnected`: connect a pending server; on success
register its tools, store the client and delete the pending entry. -/
def MCPManager.EnsureConnected (conn : ConnOracle) (m : MCPManager)
    (serverName : String) : Except MgrError MCPManager :=
  match alookup m.clients serverName with
  | some _ => .ok m
  | none =>
    match alookup m.pendingConfigs serverName with
    | none => .error (.notConfigured serverName)
    | some _config =>
      match conn serverName with
      | none => .error (.connectFailed serverName)
      | some tools =>
        .ok { m with
              toolRouting := registerTools m.toolRouting tools serverName
              clients := ainsert m.clients serverName ⟨serverName, tools⟩
              pendingConfigs := aerase m.pendingConfigs serverName }

/-- `MCPManager.AddServer`: eager connect. On success every listed tool is
registered in the routing map and the client stored; the pending map is
left untouched (the source has no `delete(m.pendingConfigs, ...)` here). -/
def MCPManager.AddServer (conn : ConnOracle) (m : MCPManager)
    (config : MCPServerConfig) : Except MgrError MCPManager :=
  if m.clients.length ≥ m.maxClients then .error (.maxServersReached m.maxClients)
  else
    match alookup m.clients config.name with
    | some _ => .error (.alreadyExists config.name)
    | none =>
      match validateServerConfig config with
      | .error e => .error (.invalidConfig e)
      | .ok () =>
        match conn config.name with
        | none => .error (.connectFailed config.name)
        | some tools =>
          .ok { m with
                toolRouting := registerTools m.toolRouting tools config.name
                clients := ainsert m.clients config.name ⟨config.name, tools⟩ }

/-- `MCPManager.RemoveServer`: drop the routing entries owned by the
server, close and remove the client. -/
def MCPManager.RemoveServer (m : MCPManager) (name : String) :
    Except MgrError MCPManager :=
  match alookup m.clients name with
  | none => .error (.serverNotFound name)
  | some _ =>
    .ok { m with
          toolRouting := m.toolRouting.filter (fun p => !(p.2 == name))
          clients := aerase m.clients name }

/-- `MCPManager.Close`: close all clients, clear `clients` and
`toolRouting` (the source clears only those two maps). -/
def MCPManager.Close (m : MCPManager) : MCPManager :=
  { m with clients := [], toolRouting := [] }

/-- `MCPManager.GetActiveTools`: `mcp_discover` first, then the discovered
tools (map iteration; membership-stable in the list model). -/
def MCPManager.GetActiveTools (m : MCPManager) : List Tool :=
  MCPDiscoverTool :: m.discoveredTools.map (·.2)

/-- `MCPManager.GetToolsFromServer`: connected clients answer with a fresh
`ListTools` RPC (the connection oracle); otherwise connect via
`EnsureConnected` first. -/
def MCPManager.GetToolsFromServer (conn : ConnOracle) (m : MCPManager)
    (serverName : String) : Except MgrError (MCPManager × List Tool) :=
  match alookup m.clients serverName with
  | some _client =>
    match conn serverName with
    | some tools => .ok (m, tools)
    | none => .error (.connectFailed serverName)
  | none =>
    match m.EnsureConnected conn serverName with
    | .error e => .error e
    | .ok m' =>
      match alookup m'.clients serverName with
      | none => .error (.serverNotFound serverName)
      | some _client =>
        match conn serverName with
        | some tools => .ok (m', tools)
        | none => .error (.connectFailed serverName)

/-! ## JIT discovery (`MCPManager.SearchTools`, `MCPManager.HandleDiscovery`) -/

/-- Accumulator of the `SearchTools` loops: the evolving manager, matched
tools, servers tried, and the `seen` de-duplication set. -/
structure SearchAcc where
  m : MCPManager
  matchedTools : List Tool
  serversTried : List String
  seen : List String
deriving Repr

/-- The tool-matching inner loop of `SearchTools`: de-duplicate by name,
match against the pattern, register matched tools in the routing map, stop
when `maxToolsPerDiscovery` is reached. The returned flag signals the
early `return` of the source. -/
def searchMatchLoop (pattern serverName : String) :
    List Tool → SearchAcc → SearchAcc × Bool
  | [], acc => (acc, false)
  | tool :: rest, acc =>
    if acc.seen.contains tool.function.name then
      searchMatchLoop pattern serverName rest acc
    else if MatchToolPattern pattern tool.function.name then
      let acc' : SearchAcc :=
        { acc with
          matchedTools := acc.matchedTools ++ [tool]
          seen := acc.seen ++ [tool.function.name]
          m := { acc.m with
                 toolRouting := ainsert acc.m.toolRouting tool.function.name serverName } }
      if acc'.matchedTools.length ≥ acc'.m.maxToolsPerDiscovery then (acc', true)
      else searchMatchLoop pattern serverName rest acc'
    else searchMatchLoop pattern serverName rest acc

/-- The per-server loop of `SearchTools` over the pending-config snapshot:
connect not-yet-connected servers via `AddServer` (failures are logged and
skipped), fill the catalog cache, then run the matching loop. -/
def searchServersLoop (conn : ConnOracle) (pattern : String) :
    List (String × MCPServerConfig) → SearchAcc → SearchAcc
  | [], acc => acc
  | (serverName, config) :: rest, acc =>
    let acc := { acc with serversTried := acc.serversTried ++ [serverName] }
    let afterConnect : Option MCPManager :=
      match alookup acc.m.clients serverName with
      | some _ => some acc.m
      | none =>
        match acc.m.AddServer conn config with
        | .ok m' => some m'
        | .error _ => none
    match afterConnect with
    | none => searchServersLoop conn pattern rest acc
    | some m1 =>
      let acc := { acc with m := m1 }
      let afterFetch : Option (MCPManager × List Tool) :=
        match alookup acc.m.allToolsCache serverName with
        | some cached => some (acc.m, cached)
        | none =>
          match acc.m.GetToolsFromServer conn serverName with
          | .ok (m2, ts) =>
            some ({ m2 with allToolsCache := ainsert m2.allToolsCache serverName ts }, ts)
          | .error _ => none
      match afterFetch with
      | none => searchServersLoop conn pattern rest acc
      | some (m2, tools) =>
        let acc := { acc with m := m2 }
        let (acc, limitHit) := searchMatchLoop pattern serverName tools acc
        if limitHit then acc
        else searchServersLoop conn pattern rest acc

/-- `MCPManager.SearchTools` from `server/mcp.go`: returns the updated
manager, the matched tools and the servers tried. The source's error
return is always `nil`. -/
def MCPManager.SearchTools (conn : ConnOracle) (m : MCPManager)
    (pattern : String) : MCPManager × List Tool × List String :=
  let acc := searchServersLoop conn pattern m.pendingConfigs
    { m := m, matchedTools := [], serversTried := [], seen := [] }
  (acc.m, acc.matchedTools, acc.serversTried)

/-- `MCPManager.HandleDiscovery` from `server/mcp.go`: run `SearchTools`,
split the matches into already-known and new, add the new tools to the
discovered set. Returns the updated manager and the new tools (the textual
summary built by the source is not modelled; no claim concerns it). -/
def MCPManager.HandleDiscovery (conn : ConnOracle) (m : MCPManager)
    (pattern : String) : MCPManager × List Tool :=
  let (m1, tools, _servers) := m.SearchTools conn pattern
  if tools.length == 0 then (m1, [])
  else
    let newTools := tools.filter (fun t => (alookup m1.discoveredTools t.function.name).isNone)
    let m2 := { m1 with
                discoveredTools :=
                  newTools.foldl (fun d t => ainsert d t.function.name t) m1.discoveredTools }
    (m2, newTools)

/-! ## Tool execution (`MCPManager.ExecuteTool`) -/

/-- The error cases of `ExecuteTool` (formatted strings in the source). -/
inductive ExecError where
  | toolNotFound (name : String)
  | clientNotFound (name : String)
  | toolFailed (msg : String)
deriving DecidableEq, Repr

/-- `ToolResult` from `server/mcp.go`. -/
structure ToolResult where
  Content : String
  Error : Option ExecError
deriving DecidableEq, Repr

/-- `MCPManager.ExecuteTool` from `server/mcp.go`: route by the tool name;
absent names yield the tool-not-found error (there is no special case for
`mcp_discover` here), then look up the client and invoke `CallTool`. -/
def MCPManager.ExecuteTool (callO : CallOracle) (m : MCPManager)
    (toolCall : ToolCall) : ToolResult :=
  let toolName := toolCall.function.name
  match alookup m.toolRouting toolName with
  | none => { Content := "", Error := some (.toolNotFound toolName) }
  | some clientName =>
    match alookup m.clients clientName with
    | none => { Content := "", Error := some (.clientNotFound clientName) }
    | some _client =>
      let (content, err) := callO clientName toolName toolCall.function.arguments
      { Content := content, Error := err.map .toolFailed }

/-! ## `JITState` (`server/mcp_jit.go`) -/

/-- `JITState` from `server/mcp_jit.go`. -/
structure JITState where
  DiscoveredTools : List (String × Tool)
  PendingServers : List (String × MCPServerConfig)
  ConnectedServers : List (String × Bool)
  ToolServerMap : List (String × String)
  AllToolsCache : List (String × List Tool)
  MaxToolsPerDiscovery : Nat
deriving Repr

/-- `JITState.GetActiveTools`: `mcp_discover` plus the discovered tools. -/
def JITState.GetActiveTools (j : JITState) : List Tool :=
  MCPDiscoverTool :: j.DiscoveredTools.map (·.2)

/-! ## Reachable manager states

`Reachable` closes the initial manager under the operations named by the
pending/connected exclusivity claim: `AddServerLazy`, `AddServer`,
`EnsureConnected`, `SearchTools`, `RemoveServer`, `Close` (failing
operations leave the state unchanged, so only successful transitions add
states). `ReachableExclSearch` is the restriction used by the amended
claim: no `SearchTools`, and each admission concerns a fresh name. -/

inductive Reachable (conn : ConnOracle) : MCPManager → Prop where
  | init (maxClients maxTools : Nat) : Reachable conn (NewMCPManager maxClients maxTools)
  | addLazy {m m' : MCPManager} {cfg : MCPServerConfig} :
      Reachable conn m → m.AddServerLazy cfg = .ok m' → Reachable conn m'
  | add {m m' : MCPManager} {cfg : MCPServerConfig} :
      Reachable conn m → m.AddServer conn cfg = .ok m' → Reachable conn m'
  | ensure {m m' : MCPManager} {n : String} :
      Reachable conn m → m.EnsureConnected conn n = .ok m' → Reachable conn m'
  | search {m : MCPManager} (pattern : String) :
      Reachable conn m → Reachable conn (m.SearchTools conn pattern).1
  | remove {m m' : MCPManager} {n : String} :
      Reachable conn m → m.RemoveServer n = .ok m' → Reachable conn m'
  | closeStep {m : MCPManager} :
      Reachable conn m → Reachable conn m.Close

inductive ReachableExclSearch (conn : ConnOracle) : MCPManager → Prop where
  | init (maxClients maxTools : Nat) :
      ReachableExclSearch conn (NewMCPManager maxClients maxTools)
  | addLazy {m m' : MCPManager} {cfg : MCPServerConfig} :
      ReachableExclSearch conn m → alookup m.clients cfg.name = none →
      m.AddServerLazy cfg = .ok m' → ReachableExclSearch conn m'
  | add {m m' : MCPManager} {cfg : MCPServerConfig} :
      ReachableExclSearch conn m → alookup m.pendingConfigs cfg.name = none →
      m.AddServer conn cfg = .ok m' → ReachableExclSearch conn m'
  | ensure {m m' : MCPManager} {n : String} :
      ReachableExclSearch conn m → m.EnsureConnected conn n = .ok m' →
      ReachableExclSearch conn m'
  | remove {m m' : MCPManager} {n : String} :
      ReachableExclSearch conn m → m.RemoveServer n = .ok m' →
      ReachableExclSearch conn m'
  | closeStep {m : MCPManager} :
      ReachableExclSearch conn m → ReachableExclSearch conn m.Close

/-! ## Transport clients: handshake and tool listing
(`MCPHTTPClient`, `MCPWebSocketClient`) -/

/-- Minimal JSON values as sent in the MCP handshake. -/
inductive Json where
  | str (s : String)
  | bool (b : Bool)
  | obj (fields : List (String × Json))

/-- Field lookup in a JSON object. -/
def jsonField : Json → String → Option Json
  | .obj fields, k => alookup fields k
  | _, _ => none

/-- A JSON-RPC message as sent by a transport client. -/
inductive RpcMsg where
  | request (method : String) (params : Json)
  | notification (method : String) (params : Option Json)

/-- The `initialize` params built by `MCPHTTPClient.Initialize`
(`initParams` map literal in the source): note the `roots`-capability
object. -/
def httpInitParams : Json :=
  .obj [("protocolVersion", .str "2024-11-05"),
        ("capabilities", .obj [("roots", .obj [("listChanged", .bool true)])]),
        ("clientInfo", .obj [("name", .str "ollama"), ("version", .str "1.0.0")])]

/-- The `initialize` params built by `MCPWebSocketClient.Initialize`
(the `mcpInitializeRequest` struct literal in the source). -/
def wsInitParams : Json :=
  .obj [("protocolVersion", .str "2024-11-05"),
        ("capabilities", .obj [("tools", .obj [])]),
        ("clientInfo", .obj [("name", .str "ollama"), ("version", .str "1.0.0")])]

/-- The `initialize` params as the spec words them (for comparison with the
definitions taken from the source): `protocolVersion "2024-11-05"`,
`capabilities` containing an empty `tools` object, `clientInfo` naming the
host. -/
def specInitParams (host : String) : Json :=
  .obj [("protocolVersion", .str "2024-11-05"),
        ("capabilities", .obj [("tools", .obj [])]),
        ("clientInfo", .obj [("name", .str host), ("version", .str "1.0.0")])]

/-- The message sequence of a first `MCPHTTPClient.Initialize` (the
already-initialized fast path sends nothing): the `initialize` request,
then the `notifications/initialized` notification with nil params. -/
def httpInitSends : List RpcMsg :=
  [.request "initialize" httpInitParams,
   .notification "notifications/initialized" none]

/-- The message sequence of a first `MCPWebSocketClient.Initialize`. -/
def wsInitSends : List RpcMsg :=
  [.request "initialize" wsInitParams,
   .notification "notifications/initialized" none]

/-- A tool declaration of a `tools/list` result
(`mcpListToolsResponse.Tools` entry: name and description; the
input-schema translation performed by both clients is not modelled — no
claim concerns it). -/
structure McpToolDecl where
  name : String
  description : String
deriving DecidableEq, Repr

/-- `MCPHTTPClient.ListTools` conversion of one listed tool: the registered
name is `c.name + ":" + mcpTool.Name`. -/
def httpToolFromDecl (clientName : String) (d : McpToolDecl) : Tool :=
  { type := "function"
    function := { name := clientName ++ ":" ++ d.name, description := d.description } }

/-- The tool list produced by `MCPHTTPClient.ListTools`. -/
def httpListToolsConvert (clientName : String) (ds : List McpToolDecl) : List Tool :=
  ds.map (httpToolFromDecl clientName)

/-- `MCPWebSocketClient.ListTools` conversion of one listed tool: the
registered name is the raw `mcpTool.Name` (no server prefix). -/
def wsToolFromDecl (d : McpToolDecl) : Tool :=
  { type := "function"
    function := { name := d.name, description := d.description } }

/-- The tool list produced by `MCPWebSocketClient.ListTools`. -/
def wsListToolsConvert (ds : List McpToolDecl) : List Tool :=
  ds.map wsToolFromDecl

/-! ## Concrete fixtures used by several claims -/

/-- A valid stdio filesystem server descriptor (passes
`validateServerConfig`: printable short name, allowed command `npx`). -/
def fsConfig : MCPServerConfig :=
  { name := "fs"
    command := "npx"
    args := ["-y", "@modelcontextprotocol/server-filesystem", "/data"] }

/-- A tool the filesystem server lists, matched by `*read*`. -/
def toolReadFile : Tool :=
  { type := "function"
    function := { name := "read_file", description := "Read a file" } }

/-- A tool the filesystem server lists that no discovery pattern below
matches. -/
def toolHidden : Tool :=
  { type := "function"
    function := { name := "hidden_tool", description := "Never discovered" } }

/-- A connection oracle under which every dial succeeds and lists the two
tools above. -/
def connFS : ConnOracle := fun _ => some [toolReadFile, toolHidden]

/-- A call oracle under which every tool invocation succeeds with empty
content. -/
def trivialCallO : CallOracle := fun _ _ _ => ("", none)

/-- The fresh manager `NewMCPManager(10, 5)`. -/
def mgr0 : MCPManager := NewMCPManager 10 5

/-- The manager after a successful `AddServerLazy(fsConfig)`. -/
def mgr1 : MCPManager := (mgr0.AddServerLazy fsConfig).toOption.getD mgr0

/-- The manager after `mgr1.SearchTools(connFS, "*")` (the discovery pass
connects the pending server through `AddServer`). -/
def mgr2 : MCPManager := (mgr1.SearchTools connFS "*").1

/-! ## C1 -/

/-- C1: for every state of the JIT tool-plane — `MCPManager` or `JITState`,
hence in particular every reachable one, after any number of discovery
calls, additions or removals — `GetActiveTools()` is non-empty and begins
with the built-in `mcp_discover` meta-tool, followed by the discovered
tools. -/
theorem c1_getActiveTools_starts_with_discover :
    (∀ m : MCPManager, m.GetActiveTools ≠ [] ∧
       m.GetActiveTools.head? = some MCPDiscoverTool ∧
       MCPDiscoverTool.function.name = "mcp_discover" ∧
       m.GetActiveTools.tail = m.discoveredTools.map (·.2)) ∧
    (∀ j : JITState, j.GetActiveTools ≠ [] ∧
       j.GetActiveTools.head? = some MCPDiscoverTool ∧
       j.GetActiveTools.tail = j.DiscoveredTools.map (·.2)) := by
  refine ⟨fun m => ⟨?_, ?_, rfl, rfl⟩, fun j => ⟨?_, ?_, rfl⟩⟩ <;>
    simp [MCPManager.GetActiveTools, JITState.GetActiveTools]

/-! ## C2 -/

/-- C2: the three pattern-matching scenarios of the spec:
`MatchToolPattern("*file*", "filesystem:list_directory") == true` (edge
wildcards match by substring), `MatchToolPattern("git:*",
"filesystem:read_file") == false` (interior colon with trailing `*` falls
through to glob matching), `MatchToolPattern("GIT:STATUS", "git:status")
== true` (case-insensitive exact match). -/
theorem c2_matchToolPattern_scenarios :
    MatchToolPattern "*file*" "filesystem:list_directory" = true ∧
    MatchToolPattern "git:*" "filesystem:read_file" = false ∧
    MatchToolPattern "GIT:STATUS" "git:status" = true :=
  ⟨by decide, by decide, by decide⟩

/-! ## C5 -/

/-- An HTTP server descriptor exactly as the repository documentation shows
them: a name and a URL, no command. -/
def remoteHTTPConfig : MCPServerConfig :=
  { name := "remote-server"
    transport := "http"
    url := "http://server.example:8085/mcp" }

/-- C5 (the code contradicts this claim): `validateServerConfig` never
reads the transport or URL of a descriptor — validation is identical for
every transport — and therefore an HTTP descriptor with a valid name and
an empty command is rejected with the empty-command error rather than
passing validation. -/
theorem c5_http_empty_command_rejected :
    (∀ (cfg : MCPServerConfig) (t u : String),
        validateServerConfig { cfg with transport := t, url := u } =
          validateServerConfig cfg) ∧
    validateServerConfig remoteHTTPConfig = .error .emptyCommand ∧
    remoteHTTPConfig.name ≠ "" ∧
    remoteHTTPConfig.name.length ≤ 100 ∧
    goContainsAny remoteHTTPConfig.name "/\\:*?\"<>|" = false :=
  ⟨fun _ _ _ => rfl, rfl, by decide, by decide, by decide⟩

/-! ## C4 -/

/-- C4 counterexample: on a fresh manager (routing map empty, as for any
name absent from routing), executing the `mcp_discover` call returns the
tool-not-found error — `ExecuteTool` does not delegate to the JIT
discovery engine. -/
theorem c4_counterexample_discover_not_delegated :
    mgr0.ExecuteTool trivialCallO
        { function := { name := "mcp_discover"
                        arguments := [("pattern", .str "*file*")] } } =
      { Content := "", Error := some (.toolNotFound "mcp_discover") } := by
  rfl

/-- C4 amended: for every tool call whose name is absent from the routing
map — `mcp_discover` included — `ExecuteTool` returns the tool-not-found
error; discovery calls are recognised separately by `IsMCPDiscoverCall`,
which holds exactly when the call is named `mcp_discover` (the
delegation to `HandleDiscovery` is performed by the chat loop before
`ExecuteTool` is reached, not by `ExecuteTool`). -/
theorem c4_absent_name_tool_not_found (callO : CallOracle) (m : MCPManager)
    (tc : ToolCall) (h : alookup m.toolRouting tc.function.name = none) :
    m.ExecuteTool callO tc =
      { Content := "", Error := some (.toolNotFound tc.function.name) } ∧
    ∀ tc' : ToolCall, IsMCPDiscoverCall tc' = (tc'.function.name == "mcp_discover") := by
  refine ⟨?_, fun _ => rfl⟩
  simp [MCPManager.ExecuteTool, h]

/-- C4 witness: the amended theorem applied to the `mcp_discover` call on
the fresh manager. -/
theorem c4_absent_name_tool_not_found_witness :
    alookup mgr0.toolRouting "mcp_discover" = none ∧
    mgr0.ExecuteTool trivialCallO
        { function := { name := "mcp_discover", arguments := [] } } =
      { Content := "", Error := some (.toolNotFound "mcp_discover") } :=
  ⟨by decide,
   (c4_absent_name_tool_not_found trivialCallO mgr0
      { function := { name := "mcp_discover", arguments := [] } } (by decide)).1⟩

/-! ## C6 -/

/-- C6 counterexample: the `initialize` params of the HTTP transport client
differ from the specified params — its `capabilities` object is
`\x7broots: \x7blistChanged: true\x7d\x7d`, not `\x7btools: \x7b\x7d\x7d`. -/
theorem c6_counterexample_http_params :
    httpInitParams ≠ specInitParams "ollama" ∧
    jsonField httpInitParams "capabilities" =
      some (.obj [("roots", .obj [("listChanged", .bool true)])]) := by
  constructor
  · intro h
    simp [httpInitParams, specInitParams] at h
  · rfl

/-- C6 amended: on a first `Initialize`, the WebSocket client sends the
`initialize` request with params exactly as specified (`protocolVersion
"2024-11-05"`, `capabilities` an empty `tools` object, `clientInfo` name
`"ollama"` version `"1.0.0"`) followed by the `notifications/initialized`
notification; the HTTP client sends the same message sequence and the same
`protocolVersion` and `clientInfo`, but its `capabilities` object is
`\x7broots: \x7blistChanged: true\x7d\x7d` instead of `\x7btools: \x7b\x7d\x7d`.
(The stdio client implementation is not among the provided sources.) -/
theorem c6_handshake_messages :
    wsInitParams = specInitParams "ollama" ∧
    wsInitSends = [.request "initialize" (specInitParams "ollama"),
                   .notification "notifications/initialized" none] ∧
    httpInitSends = [.request "initialize" httpInitParams,
                     .notification "notifications/initialized" none] ∧
    jsonField httpInitParams "protocolVersion" =
      jsonField (specInitParams "ollama") "protocolVersion" ∧
    jsonField httpInitParams "clientInfo" =
      jsonField (specInitParams "ollama") "clientInfo" ∧
    jsonField httpInitParams "capabilities" ≠
      jsonField (specInitParams "ollama") "capabilities" := by
  refine ⟨rfl, rfl, rfl, rfl, rfl, ?_⟩
  intro h
  simp [httpInitParams, specInitParams, jsonField, alookup] at h

/-! ## C7 -/

/-- C7 counterexample: a tool listed over the WebSocket transport is
registered under its raw name, not under `"server:tool"`. -/
theorem c7_counterexample_ws_raw_name :
    (wsListToolsConvert [{ name := "read_file", description := "Read a file" }]).map
        (·.function.name) = ["read_file"] ∧
    ("read_file" : String) ≠ "srv" ++ ":" ++ "read_file" :=
  ⟨rfl, by decide⟩

/-- C7 amended: only the HTTP transport qualifies listed tool names as
`"server:tool"` (`c.name + ":" + mcpTool.Name`); the WebSocket transport —
like stdio — registers the raw tool name. -/
theorem c7_qualified_names (clientName : String) (ds : List McpToolDecl) :
    (httpListToolsConvert clientName ds).map (·.function.name) =
      ds.map (fun d => clientName ++ ":" ++ d.name) ∧
    (wsListToolsConvert ds).map (·.function.name) = ds.map (·.name) := by
  constructor <;>
    simp [httpListToolsConvert, wsListToolsConvert, httpToolFromDecl, wsToolFromDecl]

/-! ## C8 -/

/-- The spec's planner batch: `write_file(path:/a)` then
`read_file(path:/a)`. -/
def c8Batch : List ToolCall :=
  [{ function := { name := "write_file", arguments := [("path", .str "/a")] } },
   { function := { name := "read_file", arguments := [("path", .str "/a")] } }]

/-- C8 counterexample: the plan for the batch is sequential with groups
`[[0],[1]]`, but its reason is the name-pattern message — the
mixed-read/write reason computed earlier is overwritten by the later
same-file and name-ordering checks, and the final reason mentions neither
`read` nor `write` nor `Mixed`. -/
theorem c8_counterexample_reason :
    goContains (AnalyzeExecutionPlan c8Batch).Reason "read" = false ∧
    goContains (AnalyzeExecutionPlan c8Batch).Reason "write" = false ∧
    goContains (AnalyzeExecutionPlan c8Batch).Reason "Mixed" = false ∧
    goContains "Mixed read and write operations detected" "read" = true :=
  ⟨by decide, by decide, by decide, by decide⟩

/-- C8 amended: for the batch `[write_file(path:/a), read_file(path:/a)]`,
`AnalyzeExecutionPlan` returns `sequential=true`, `groups=[[0],[1]]`, and
the reason `"Tool names suggest sequential dependency"` (the
mixed-read/write reason is computed first but overwritten). -/
theorem c8_plan_value :
    AnalyzeExecutionPlan c8Batch =
      { RequiresSequential := true
        Groups := [[0], [1]]
        Reason := "Tool names suggest sequential dependency" } := by
  decide

/-! ## C9 -/

/-- C9 counterexample: on the empty batch the planner still emits the
single group `[[0]]`, so the concatenation of the groups is `[0]`, not the
empty index list. -/
theorem c9_counterexample_empty_batch :
    AnalyzeExecutionPlan [] =
      { RequiresSequential := false, Groups := [[0]], Reason := "Single tool call" } ∧
    (AnalyzeExecutionPlan []).Groups.flatten ≠ List.range ([] : List ToolCall).length :=
  ⟨by decide, by decide⟩

theorem flatten_map_singleton {α : Type} (l : List α) :
    (l.map (fun i => [i])).flatten = l := by
  induction l with
  | nil => rfl
  | cons a rest ih => simp [ih]

/-- C9 amended: for every non-empty batch `B`, the plan `P` returned by
`AnalyzeExecutionPlan B` schedules every call index exactly once:
`concat(P.Groups) = [0, ..., |B|-1]`. (The empty batch is the sole
exception, per the counterexample.) -/
theorem c9_schedule_exactly_once (toolCalls : List ToolCall)
    (h : toolCalls ≠ []) :
    (AnalyzeExecutionPlan toolCalls).Groups.flatten = List.range toolCalls.length := by
  unfold AnalyzeExecutionPlan
  by_cases hle : toolCalls.length ≤ 1
  · have h1 : toolCalls.length = 1 :=
      Nat.le_antisymm hle (Nat.one_le_iff_ne_zero.mpr (by simpa using h))
    simp [hle, h1, List.range_succ]
  · simp only [hle, if_false]
    repeat' split
    all_goals simp_all [flatten_map_singleton]

/-- C9 witness: the amended theorem applied to a concrete two-call batch. -/
theorem c9_schedule_exactly_once_witness :
    (AnalyzeExecutionPlan
        [{ function := { name := "list_directory", arguments := [("path", .str "/a")] } },
         { function := { name := "read_file", arguments := [("path", .str "/b")] } }]).Groups.flatten =
      List.range 2 :=
  c9_schedule_exactly_once _ (by decide)

/-! ## C3 -/

/-- Inversion of a successful `AddServerLazy`. -/
theorem addServerLazy_ok {m m' : MCPManager} {cfg : MCPServerConfig}
    (h : m.AddServerLazy cfg = .ok m') :
    m' = { m with pendingConfigs := ainsert m.pendingConfigs cfg.name cfg } := by
  unfold MCPManager.AddServerLazy at h
  split at h
  · exact Except.noConfusion h
  · split at h
    · exact Except.noConfusion h
    · injection h with h2
      exact h2.symm

/-- Inversion of a successful `AddServer`: the name was not yet connected,
the dial succeeded, tools were registered, the client stored — and the
pending map was left untouched. -/
theorem addServer_ok {conn : ConnOracle} {m m' : MCPManager} {cfg : MCPServerConfig}
    (h : m.AddServer conn cfg = .ok m') :
    alookup m.clients cfg.name = none ∧
    ∃ tools, conn cfg.name = some tools ∧
      m' = { m with
             toolRouting := registerTools m.toolRouting tools cfg.name
             clients := ainsert m.clients cfg.name ⟨cfg.name, tools⟩ } := by
  unfold MCPManager.AddServer at h
  split at h
  · exact Except.noConfusion h
  · split at h
    · exact Except.noConfusion h
    next hnone =>
      split at h
      · exact Except.noConfusion h
      · split at h
        · exact Except.noConfusion h
        next tools hconn =>
          injection h with h2
          exact ⟨hnone, tools, hconn, h2.symm⟩

/-- Inversion of a successful `EnsureConnected`: either already connected
(no change), or the pending server was dialed, registered, stored, and
removed from the pending map. -/
theorem ensureConnected_ok {conn : ConnOracle} {m m' : MCPManager} {n : String}
    (h : m.EnsureConnected conn n = .ok m') :
    ((alookup m.clients n).isSome = true ∧ m' = m) ∨
    (alookup m.clients n = none ∧ ∃ tools,
       conn n = some tools ∧
       m' = { m with
              toolRouting := registerTools m.toolRouting tools n
              clients := ainsert m.clients n ⟨n, tools⟩
              pendingConfigs := aerase m.pendingConfigs n }) := by
  unfold MCPManager.EnsureConnected at h
  split at h
  next c hsome =>
    injection h with h2
    exact .inl ⟨by simp [hsome], h2.symm⟩
  next hnone =>
    split at h
    · exact Except.noConfusion h
    next cfg hcfg =>
      split at h
      · exact Except.noConfusion h
      next tools hconn =>
        injection h with h2
        exact .inr ⟨hnone, tools, hconn, h2.symm⟩

/-- Inversion of a successful `RemoveServer`. -/
theorem removeServer_ok {m m' : MCPManager} {n : String}
    (h : m.RemoveServer n = .ok m') :
    m' = { m with
           toolRouting := m.toolRouting.filter (fun p => !(p.2 == n))
           clients := aerase m.clients n } := by
  unfold MCPManager.RemoveServer at h
  split at h
  · exact Except.noConfusion h
  · injection h with h2
    exact h2.symm

/-- C3 counterexample: from a fresh manager, `AddServerLazy(fsConfig)`
followed by a discovery pass `SearchTools("*")` that connects the pending
server (through `AddServer`, which never deletes the pending entry)
reaches a state in which the server `"fs"` is simultaneously a key of the
pending-config map and of the connected-clients map. -/
theorem c3_counterexample_pending_and_connected :
    Reachable connFS mgr2 ∧
    (alookup mgr2.clients "fs").isSome = true ∧
    (alookup mgr2.pendingConfigs "fs").isSome = true := by
  refine ⟨?_, by decide, by decide⟩
  have h1 : mgr0.AddServerLazy fsConfig = Except.ok mgr1 := by rfl
  exact Reachable.search "*" (Reachable.addLazy (Reachable.init 10 5) h1)

/-- C3 amended: the exclusivity invariant holds for every state reachable
without the discovery pass and with fresh-name admissions — via
`AddServerLazy` of names not currently connected, `AddServer` of names not
currently pending, `EnsureConnected`, `RemoveServer` and `Close` — because
`EnsureConnected` removes a server from the pending map when it connects
it. `SearchTools` breaks the invariant (it connects pending servers via
`AddServer`, which leaves the pending entry in place), as does re-admission
of a name already present in the other map. -/
theorem c3_exclusivity_excluding_search (conn : ConnOracle) (m : MCPManager)
    (h : ReachableExclSearch conn m) :
    ∀ k, (alookup m.clients k).isSome = true → alookup m.pendingConfigs k = none := by
  induction h with
  | init maxC maxT =>
    intro k hk
    simp [NewMCPManager, alookup] at hk
  | @addLazy m m' cfg hR hfresh hok ih =>
    intro k hk
    rw [addServerLazy_ok hok] at hk ⊢
    have hk' : (alookup m.clients k).isSome = true := hk
    show alookup (ainsert m.pendingConfigs cfg.name cfg) k = none
    rw [alookup_ainsert]
    by_cases hc : k = cfg.name
    · subst hc
      rw [hfresh] at hk'
      simp at hk'
    · rw [if_neg hc]
      exact ih k hk'
  | @add m m' cfg hR hpend hok ih =>
    intro k hk
    obtain ⟨hnone, tools, hconn, hm'⟩ := addServer_ok hok
    rw [hm'] at hk ⊢
    have hk' : (alookup (ainsert m.clients cfg.name ⟨cfg.name, tools⟩) k).isSome = true := hk
    show alookup m.pendingConfigs k = none
    by_cases hc : k = cfg.name
    · subst hc
      exact hpend
    · rw [alookup_ainsert, if_neg hc] at hk'
      exact ih k hk'
  | @ensure m m' n hR hok ih =>
    intro k hk
    rcases ensureConnected_ok hok with ⟨hsome, rfl⟩ | ⟨hnone, tools, hconn, hm'⟩
    · exact ih k hk
    · rw [hm'] at hk ⊢
      have hk' : (alookup (ainsert m.clients n ⟨n, tools⟩) k).isSome = true := hk
      show alookup (aerase m.pendingConfigs n) k = none
      rw [alookup_aerase]
      by_cases hc : k = n
      · rw [if_pos hc]
      · rw [if_neg hc]
        rw [alookup_ainsert, if_neg hc] at hk'
        exact ih k hk'
  | @remove m m' n hR hok ih =>
    intro k hk
    rw [removeServer_ok hok] at hk ⊢
    have hk' : (alookup (aerase m.clients n) k).isSome = true := hk
    show alookup m.pendingConfigs k = none
    rw [alookup_aerase] at hk'
    by_cases hc : k = n
    · rw [if_pos hc] at hk'
      simp at hk'
    · rw [if_neg hc] at hk'
      exact ih k hk'
  | @closeStep m hR ih =>
    intro k hk
    have hk' : (alookup ([] : List (String × MCPClient)) k).isSome = true := hk
    simp [alookup] at hk'

/-- The manager after `AddServerLazy(fsConfig)` then
`EnsureConnected("fs")`: the clean connection path. -/
def mgrConnected : MCPManager := (mgr1.EnsureConnected connFS "fs").toOption.getD mgr0

/-- C3 witness: the amended invariant applied to the concretely reachable
state `mgrConnected`, in which `"fs"` is connected and no longer pending. -/
theorem c3_exclusivity_excluding_search_witness :
    alookup mgrConnected.pendingConfigs "fs" = none := by
  have h1 : mgr0.AddServerLazy fsConfig = Except.ok mgr1 := by rfl
  have h2 : mgr1.EnsureConnected connFS "fs" = Except.ok mgrConnected := by rfl
  have hfresh : alookup mgr0.clients fsConfig.name = none := rfl
  exact c3_exclusivity_excluding_search connFS mgrConnected
    (ReachableExclSearch.ensure
      (ReachableExclSearch.addLazy (ReachableExclSearch.init 10 5) hfresh h1) h2)
    "fs" (by decide)

/-! ## C10 -/

theorem registerTools_cons (r : List (String × String)) (t0 : Tool)
    (rest : List Tool) (sname : String) :
    registerTools r (t0 :: rest) sname =
      registerTools (ainsert r t0.function.name sname) rest sname := rfl

theorem alookup_registerTools_or (ts : List Tool) (sname k : String) :
    ∀ r, alookup (registerTools r ts sname) k = alookup r k ∨
      alookup (registerTools r ts sname) k = some sname := by
  induction ts with
  | nil => exact fun r => .inl rfl
  | cons t0 rest ih =>
    intro r
    rw [registerTools_cons]
    rcases ih (ainsert r t0.function.name sname) with h | h
    · rw [h, alookup_ainsert]
      by_cases hc : k = t0.function.name
      · rw [if_pos hc]
        exact .inr rfl
      · rw [if_neg hc]
        exact .inl rfl
    · exact .inr h

theorem alookup_registerTools_mem (sname : String) (t : Tool) :
    ∀ {ts : List Tool}, t ∈ ts →
      ∀ r, alookup (registerTools r ts sname) t.function.name = some sname := by
  intro ts ht
  induction ht with
  | head rest =>
    intro r
    rw [registerTools_cons]
    rcases alookup_registerTools_or rest sname t.function.name
        (ainsert r t.function.name sname) with h | h
    · rw [h, alookup_ainsert, if_pos rfl]
    · exact h
  | tail t0 hmem ih =>
    intro r
    rw [registerTools_cons]
    exact ih _

/-- The matching loop of `SearchTools` never touches the clients map. -/
theorem searchMatchLoop_clients (pattern sname : String) :
    ∀ (tools : List Tool) (acc : SearchAcc),
      (searchMatchLoop pattern sname tools acc).1.m.clients = acc.m.clients := by
  intro tools
  induction tools with
  | nil => intro acc; rfl
  | cons t0 rest ih =>
    intro acc
    simp only [searchMatchLoop]
    split
    · exact ih acc
    · split
      · split
        · rfl
        · exact ih _
      · exact ih acc

/-- The matching loop of `SearchTools` only ever adds routing entries
pointing at the searched server. -/
theorem searchMatchLoop_routing (pattern sname : String) :
    ∀ (tools : List Tool) (acc : SearchAcc) (k : String),
      alookup (searchMatchLoop pattern sname tools acc).1.m.toolRouting k =
        alookup acc.m.toolRouting k ∨
      alookup (searchMatchLoop pattern sname tools acc).1.m.toolRouting k = some sname := by
  intro tools
  induction tools with
  | nil => exact fun acc k => .inl rfl
  | cons t0 rest ih =>
    intro acc k
    simp only [searchMatchLoop]
    split
    · exact ih acc k
    · split
      · split
        · show alookup (ainsert acc.m.toolRouting t0.function.name sname) k = _ ∨
            alookup (ainsert acc.m.toolRouting t0.function.name sname) k = some sname
          rw [alookup_ainsert]
          by_cases hc : k = t0.function.name
          · rw [if_pos hc]
            exact .inr rfl
          · rw [if_neg hc]
            exact .inl rfl
        · specialize ih { acc with
              matchedTools := acc.matchedTools ++ [t0]
              seen := acc.seen ++ [t0.function.name]
              m := { acc.m with
                     toolRouting := ainsert acc.m.toolRouting t0.function.name sname } } k
          simp only [] at ih
          rcases ih with h | h
          · rw [alookup_ainsert] at h
            by_cases hc : k = t0.function.name
            · rw [if_pos hc] at h
              exact .inr h
            · rw [if_neg hc] at h
              exact .inl h
          · exact .inr h
      · exact ih acc k

/-- The manager state right after `SearchTools` has connected the single
pending server `sname` through `AddServer` (tools registered, client
stored, pending entry left in place). -/
def afterConnectState (s : MCPManager) (sname : String) (ts : List Tool) : MCPManager :=
  { s with
    toolRouting := registerTools s.toolRouting ts sname
    clients := ainsert s.clients sname ⟨sname, ts⟩ }

/-- The `SearchTools` accumulator right before the matching loop runs for
the single pending server `sname`. -/
def afterFetchAcc (s : MCPManager) (sname : String) (ts : List Tool) : SearchAcc :=
  { m := { afterConnectState s sname ts with
           allToolsCache := ainsert (afterConnectState s sname ts).allToolsCache sname ts }
    matchedTools := []
    serversTried := [sname]
    seen := [] }

/-- The manager after `HandleDiscovery("*read*")` on the session with the
pending filesystem server: only `read_file` matches the pattern, but the
connection pass registered both listed tools in the routing map. -/
def mgrDisc : MCPManager := (mgr1.HandleDiscovery connFS "*read*").1

set_option maxRecDepth 4000 in
/-- C10: when a discovery pass (`SearchTools`) connects a pending server,
every tool the server lists — matched by the pattern or not — is
registered in the routing map (pointing at that server) and is executable
through `ExecuteTool` (the result is never the tool-not-found error);
concretely, after discovering with pattern `"*read*"` against a server
listing `read_file` and `hidden_tool`, the model-visible set
`GetActiveTools()` is `[mcp_discover, read_file]` while `hidden_tool` is
routed and executable, so the executable set strictly exceeds the
model-visible set. -/
theorem c10_search_registers_all_listed_tools
    (conn : ConnOracle) (s : MCPManager) (sname : String) (cfg : MCPServerConfig)
    (ts : List Tool) (pattern : String)
    (hpend : s.pendingConfigs = [(sname, cfg)])
    (hname : cfg.name = sname)
    (hclients : alookup s.clients sname = none)
    (hcache : alookup s.allToolsCache sname = none)
    (hlen : s.clients.length < s.maxClients)
    (hvalid : validateServerConfig cfg = .ok ())
    (hconn : conn sname = some ts) :
    (∀ t ∈ ts,
       alookup (s.SearchTools conn pattern).1.toolRouting t.function.name = some sname ∧
       ∀ (callO : CallOracle) (args : List (String × GoVal)),
         ((s.SearchTools conn pattern).1.ExecuteTool callO
             { function := { name := t.function.name, arguments := args } }).Error ≠
           some (.toolNotFound t.function.name)) ∧
    (mgrDisc.GetActiveTools = [MCPDiscoverTool, toolReadFile] ∧
     alookup mgrDisc.toolRouting "hidden_tool" = some "fs" ∧
     (∀ t ∈ mgrDisc.GetActiveTools, t.function.name ≠ "hidden_tool") ∧
     (mgrDisc.ExecuteTool trivialCallO
         { function := { name := "hidden_tool", arguments := [] } }).Error = none) := by
  have hnotge : ¬ s.clients.length ≥ s.maxClients := Nat.not_le.mpr hlen
  have hadd : s.AddServer conn cfg = .ok (afterConnectState s sname ts) := by
    unfold MCPManager.AddServer afterConnectState
    rw [hname, if_neg hnotge, hclients, hvalid, hconn]
  have hget : MCPManager.GetToolsFromServer conn (afterConnectState s sname ts) sname =
      .ok (afterConnectState s sname ts, ts) := by
    unfold MCPManager.GetToolsFromServer afterConnectState
    simp only []
    rw [alookup_ainsert, if_pos rfl, hconn]
  have hsearch : (s.SearchTools conn pattern).1 =
      (searchMatchLoop pattern sname ts (afterFetchAcc s sname ts)).1.m := by
    unfold MCPManager.SearchTools
    rw [hpend]
    simp only [searchServersLoop]
    rw [hclients, hadd]
    simp only []
    rw [show alookup (afterConnectState s sname ts).allToolsCache sname =
          alookup s.allToolsCache sname from rfl, hcache, hget]
    simp only []
    show (match searchMatchLoop pattern sname ts (afterFetchAcc s sname ts) with
          | (acc, limitHit) =>
            if limitHit then acc else searchServersLoop conn pattern [] acc).m = _
    split
    next acc flag hsm =>
      rw [hsm]
      cases flag
      · simp [searchServersLoop]
      · rfl
  have hroute : ∀ t ∈ ts,
      alookup (s.SearchTools conn pattern).1.toolRouting t.function.name = some sname := by
    intro t ht
    rw [hsearch]
    rcases searchMatchLoop_routing pattern sname ts (afterFetchAcc s sname ts)
        t.function.name with h | h
    · rw [h]
      show alookup (registerTools s.toolRouting ts sname) t.function.name = some sname
      exact alookup_registerTools_mem sname t ht _
    · exact h
  have hcli : alookup (s.SearchTools conn pattern).1.clients sname = some ⟨sname, ts⟩ := by
    rw [hsearch, searchMatchLoop_clients]
    show alookup (ainsert s.clients sname ⟨sname, ts⟩) sname = _
    rw [alookup_ainsert, if_pos rfl]
  refine ⟨fun t ht => ⟨hroute t ht, fun callO args => ?_⟩, by rfl, by rfl, by decide, by rfl⟩
  have hexec : ((s.SearchTools conn pattern).1.ExecuteTool callO
      { function := { name := t.function.name, arguments := args } }) =
      { Content := (callO sname t.function.name args).1
        Error := ((callO sname t.function.name args).2).map ExecError.toolFailed } := by
    unfold MCPManager.ExecuteTool
    simp only []
    rw [hroute t ht]
    simp only []
    rw [hcli]
  rw [hexec]
  cases hc2 : (callO sname t.function.name args).2 <;> simp [hc2]

/-- C10 witness: the theorem applied to the concrete session — the
unmatched `hidden_tool` listed by the connected filesystem server is
routed to `"fs"` and executing it does not yield tool-not-found. -/
theorem c10_search_registers_all_listed_tools_witness :
    alookup (mgr1.SearchTools connFS "*read*").1.toolRouting "hidden_tool" = some "fs" ∧
    ((mgr1.SearchTools connFS "*read*").1.ExecuteTool trivialCallO
        { function := { name := "hidden_tool", arguments := [] } }).Error ≠
      some (.toolNotFound "hidden_tool") := by
  have h := (c10_search_registers_all_listed_tools connFS mgr1 "fs" fsConfig
      [toolReadFile, toolHidden] "*read*" rfl rfl rfl rfl (by decide) rfl rfl).1
      toolHidden (by decide)
  exact ⟨h.1, h.2 trivialCallO []⟩
